import Mathlib

/-!
Verification of the ReconciliationSystem core (Go sources) against its
natural-language specification.

Modelling conventions, used throughout:

* Go `float64` monetary amounts are modelled as `Rat` (the spec assigns
  fixed 2-decimal semantics to all amounts; every amount manipulated by
  the program arises from parsing a decimal literal, so `Rat` is exact).
* Go `time.Time` is modelled as the abstract instant type `GoTime := Int`;
  the Go zero value `time.Time{}` is modelled as `0`.
* Go maps (`map[string]string`, `map[string]float64`) are modelled as
  association lists with Go's semantics: assignment overwrites, a lookup
  of a missing key yields the zero value (`""` / `0`).
* Calls into the Go standard library `time.Parse` are modelled as
  function parameters `String → Option GoTime` (one per layout string),
  since the layouts' parsing rules live outside this repository.
  `strconv.ParseFloat` is modelled concretely by `strconvParseFloat`
  over the decimal syntax (sign, digits, optional fraction, optional
  exponent); hexadecimal floats, `Inf`/`NaN` and underscores are not
  representable in `Rat` and are outside every claim considered here.
* The persistent store is the spec's external transactional collaborator:
  a table is a list of rows, a failing statement is modelled by a Boolean
  (for one-shot statements) or a per-row failure predicate (for per-record
  inserts inside a transaction).
-/

/-- Model of Go `time.Time`: an abstract instant; `0` is the zero value. -/
abbrev GoTime := Int

/-- Model of Go `strings.TrimSpace` on the character list of a string. -/
def trimChars (cs : List Char) : List Char :=
  ((cs.dropWhile Char.isWhitespace).reverse.dropWhile Char.isWhitespace).reverse

/-- Model of Go `strings.TrimSpace`. -/
def trimSpace (s : String) : String :=
  String.mk (trimChars s.data)

/-- Model of Go `strings.Contains s sub`: `sub` occurs as a contiguous
substring of `s`. -/
def strContains (s sub : String) : Bool :=
  (List.range (s.data.length + 1)).any fun i => List.isPrefixOf sub.data (s.data.drop i)

/-- Numeric value of a list of decimal digit characters. -/
def digitsToNat (ds : List Char) : Nat :=
  ds.foldl (fun a c => a * 10 + (c.toNat - 48)) 0

/-- Exponent part of a decimal float literal: optional sign, then at least
one digit, consuming the whole remaining input. -/
def parseExpPart (mant : Rat) (t : List Char) : Option Rat :=
  let sgnRest : Int × List Char :=
    match t with
    | '+' :: r => (1, r)
    | '-' :: r => (-1, r)
    | _ => (1, t)
  let eds := sgnRest.2.takeWhile Char.isDigit
  let rest := sgnRest.2.dropWhile Char.isDigit
  if eds.isEmpty || !rest.isEmpty then none
  else some (mant * (10 : Rat) ^ (sgnRest.1 * (digitsToNat eds : Int)))

/-- Model of Go `strconv.ParseFloat` on the decimal syntax:
`[sign] digits [. digits] [(e|E) [sign] digits]`, where the mantissa must
contain at least one digit; anything else fails. -/
def strconvParseFloat (s : String) : Option Rat :=
  let cs := s.data
  let sgnRest : Rat × List Char :=
    match cs with
    | '+' :: t => (1, t)
    | '-' :: t => (-1, t)
    | _ => (1, cs)
  let intDs := sgnRest.2.takeWhile Char.isDigit
  let afterInt := sgnRest.2.dropWhile Char.isDigit
  let fracState : List Char × List Char :=
    match afterInt with
    | '.' :: t => (t.takeWhile Char.isDigit, t.dropWhile Char.isDigit)
    | _ => ([], afterInt)
  if intDs.isEmpty && fracState.1.isEmpty then none
  else
    let mant : Rat :=
      sgnRest.1 * ((digitsToNat intDs : Rat) +
        (digitsToNat fracState.1 : Rat) / (10 : Rat) ^ fracState.1.length)
    match fracState.2 with
    | [] => some mant
    | 'e' :: t => parseExpPart mant t
    | 'E' :: t => parseExpPart mant t
    | _ => none

/-- Embedding of `parseFloat` (src/ingest/payment.go): empty string gives 0,
a string `strconv.ParseFloat` rejects gives 0, otherwise the parsed value. -/
def parseFloat (s : String) : Rat :=
  if s = "" then 0
  else
    match strconvParseFloat s with
    | none => 0
    | some val => val

/-- Embedding of `parseSettlementFloat` (src/ingest/settlements.go); the
source duplicates `parseFloat` verbatim. -/
def parseSettlementFloat (s : String) : Rat :=
  if s = "" then 0
  else
    match strconvParseFloat s with
    | none => 0
    | some val => val

/-- Go `map[string]string` assignment `m[k] = v`: overwrite or append. -/
def mapSet (m : List (String × String)) (k v : String) : List (String × String) :=
  match m with
  | [] => [(k, v)]
  | (ka, va) :: rest => if ka = k then (k, v) :: rest else (ka, va) :: mapSet rest k v

/-- Go `map[string]string` read `m[k]`: the zero value `""` when missing. -/
def mapGetD (m : List (String × String)) (k : String) : String :=
  match m with
  | [] => ""
  | (ka, va) :: rest => if ka = k then va else mapGetD rest k

/-- Go `map[string]float64` read as an `Option`, for stating properties. -/
def mapLookup (m : List (String × Rat)) (k : String) : Option Rat :=
  match m with
  | [] => none
  | (ka, va) :: rest => if ka = k then some va else mapLookup rest k

/-- Go `map[string]float64` update `m[k] += v` (missing key reads as 0). -/
def mapUpsertAdd (m : List (String × Rat)) (k : String) (v : Rat) : List (String × Rat) :=
  match m with
  | [] => [(k, v)]
  | (ka, va) :: rest =>
    if ka = k then (ka, va + v) :: rest else (ka, va) :: mapUpsertAdd rest k v

/-- Field map built by both normalizers: zip headers with row fields and
assign `data[TrimSpace(header)] = TrimSpace(field)` in order (Go map
semantics: a duplicate trimmed header overwrites). Trailing row fields
beyond the headers are ignored, exactly as in the Go `range headers` loop. -/
def buildDataMap (headers row : List String) : List (String × String) :=
  (headers.zip row).foldl (fun m hv => mapSet m (trimSpace hv.1) (trimSpace hv.2)) []

/-- Embedding of the `Payment` struct (src/ingest/payment.go), restricted to
the fields the verified claims depend on. The omitted fields (`sku`,
`description`, the remaining `parseFloat` amounts, `quantity`, the JSON
`rawData`, ...) are built by the identical `data[...]` / `parseFloat`
pattern as the ones kept and are read by no claim. -/
structure Payment where
  orderId : String
  settlementId : String
  txnType : String
  productSales : Rat
  total : Rat
  date : GoTime
deriving DecidableEq

/-- Date assignment block of `PaymentFromCSVRow`: when the `date/time` field
is non-empty, try the primary layout, then the fallback layout, then
`time.Now()`; when the field is empty the whole block is skipped and the
struct keeps the Go zero `time.Time`, modelled as `0`. `p1`/`p2` model
`time.Parse` with layouts `Jan 2, 2006 3:04:05 PM MST` / `2006-01-02`. -/
def parsePaymentDate (p1 p2 : String → Option GoTime) (now : GoTime) (dateStr : String) : GoTime :=
  if dateStr ≠ "" then
    match p1 dateStr with
    | some t => t
    | none =>
      match p2 dateStr with
      | some t => t
      | none => now
  else 0

/-- Embedding of `PaymentFromCSVRow` (src/ingest/payment.go): fails exactly
when the row has fewer fields than the headers, otherwise builds the trimmed
field map and fills the struct. -/
def PaymentFromCSVRow (p1 p2 : String → Option GoTime) (now : GoTime)
    (headers row : List String) : Option Payment :=
  if row.length < headers.length then none
  else
    let data := buildDataMap headers row
    some
      { orderId := mapGetD data "order id"
        settlementId := mapGetD data "settlement id"
        txnType := mapGetD data "type"
        productSales := parseFloat (mapGetD data "product sales")
        total := parseFloat (mapGetD data "total")
        date := parsePaymentDate p1 p2 now (mapGetD data "date/time") }

/-- Embedding of the `Settlement` struct (src/ingest/settlements.go),
restricted to the fields the verified claims depend on; the omitted string
fields are built by the same `data[...]` pattern and are read by no claim. -/
structure Settlement where
  settlementId : String
  orderId : String
  totalAmount : Rat
  amount : Rat
  postedDateTime : GoTime
deriving DecidableEq

/-- Date assignment block of `SettlementFromTSVRow`, structurally identical
to `parsePaymentDate`; `q1`/`q2` model `time.Parse` with layouts
`2006-01-02 15:04:05 MST` / `2006-01-02 15:04:05`. -/
def parseSettlementDate (q1 q2 : String → Option GoTime) (now : GoTime) (dateStr : String) : GoTime :=
  if dateStr ≠ "" then
    match q1 dateStr with
    | some t => t
    | none =>
      match q2 dateStr with
      | some t => t
      | none => now
  else 0

/-- Embedding of `SettlementFromTSVRow` (src/ingest/settlements.go). -/
def SettlementFromTSVRow (q1 q2 : String → Option GoTime) (now : GoTime)
    (headers row : List String) : Option Settlement :=
  if row.length < headers.length then none
  else
    let data := buildDataMap headers row
    some
      { settlementId := mapGetD data "settlement-id"
        orderId := mapGetD data "order-id"
        totalAmount := parseSettlementFloat (mapGetD data "total-amount")
        amount := parseSettlementFloat (mapGetD data "amount")
        postedDateTime := parseSettlementDate q1 q2 now (mapGetD data "posted-date-time") }

/-- Embedding of `AggregateSettlementsByOrderID` (src/ingest/settlements.go):
left-to-right scan, `orderTotals[s.OrderID] += s.Amount` for each item with a
non-empty order key. -/
def AggregateSettlementsByOrderID (settlements : List Settlement) : List (String × Rat) :=
  settlements.foldl
    (fun orderTotals s =>
      if s.orderId ≠ "" then mapUpsertAdd orderTotals s.orderId s.amount else orderTotals)
    []

/-- Errors of the payment ingestion path (src/utils/parser.go): `readFail`
models an error returned by `reader.Read` (e.g. end of input), which
`ParseAndStorePayments` returns as-is from the header scan loop;
`headersNotFound` models `fmt.Errorf("headers not found")`. -/
inductive IngestErr where
  | readFail
  | headersNotFound
deriving DecidableEq

/-- Header scan loop of `ParseAndStorePayments` (src/utils/parser.go):
`for i := 0; i < 20; i++` reads a line (a read error is returned
immediately) and breaks on the first line whose first field contains
`date/time`; if the loop ends without a break, `headers` is still empty and
the headers-not-found error is returned. The fuel argument is instantiated
with 20 by the caller. -/
def scanForHeaders : Nat → List (List String) → Except IngestErr (List String × List (List String))
  | 0, _ => .error .headersNotFound
  | _ + 1, [] => .error .readFail
  | n + 1, line :: rest =>
    if line.length > 0 && strContains (line.headD "") "date/time" then .ok (line, rest)
    else scanForHeaders n rest

/-- Row of the `records` table as inserted by the ingestors (the store
assigns `id` and `created_at`; the JSON `raw_data` payload is not modelled). -/
structure InsertRow where
  source : String
  orderId : String
  date : GoTime
  totalAmount : Rat
deriving DecidableEq

/-- Body of the data loop of `ParseAndStorePayments` for one line: skip
empty lines, normalize, and insert only when normalization succeeded, the
order key is non-empty and the total is non-zero. -/
def processPaymentRow (p1 p2 : String → Option GoTime) (now : GoTime)
    (headers row : List String) : Option InsertRow :=
  if row.length = 0 then none
  else
    match PaymentFromCSVRow p1 p2 now headers row with
    | none => none
    | some payment =>
      if payment.orderId = "" ∨ payment.total = 0 then none
      else some { source := "payments", orderId := payment.orderId,
                  date := payment.date, totalAmount := payment.total }

/-- Embedding of `ParseAndStorePayments` (src/utils/parser.go) on an
already-opened row source: scan up to 20 lines for the header line, then
feed every remaining line through the accept-filter and collect the rows
inserted into `records`. -/
def ParseAndStorePayments (p1 p2 : String → Option GoTime) (now : GoTime)
    (lines : List (List String)) : Except IngestErr (List InsertRow) :=
  match scanForHeaders 20 lines with
  | .error e => .error e
  | .ok (headers, rest) => .ok (rest.filterMap (processPaymentRow p1 p2 now headers))

/-- Row of the persisted `records` table as read back by the reconciliation
query (`id`, `source`, `order_id`, `date`, `total_amount`). -/
structure StoredRecord where
  id : Int
  source : String
  orderId : String
  date : GoTime
  totalAmount : Rat
deriving DecidableEq

/-- Result set of the reconciliation query (src/controllers/reconcile_controller.go):
`FROM records p JOIN records s ON p.order_id = s.order_id WHERE
p.source = payments AND s.source = settlements`, as the list of matched
pairs `(p, s)`. -/
def reconcileJoin (records : List StoredRecord) : List (StoredRecord × StoredRecord) :=
  (records.filter fun p => p.source == "payments").flatMap fun p =>
    (records.filter fun s => s.source == "settlements" && p.orderId == s.orderId).map
      fun s => (p, s)

/-- Row inserted into `reconciled_records` for one matched pair. The
`orderId` field records the join key scanned from the query row (the SQL
table itself keeps only the two record ids and the difference); it lets the
theorems speak about the order key a result row belongs to. -/
structure ReconciledRow where
  paymentsRecordId : Int
  settlementsRecordId : Int
  orderId : String
  amountDifference : Rat
deriving DecidableEq

/-- Embedding of `RunReconciliation` (src/controllers/reconcile_controller.go)
with every store statement succeeding: delete all prior `reconciled_records`
rows, then insert one row per matched pair with
`diff := paymentTotal - settlementTotal`. The returned list is the full
content of `reconciled_records` after the run (the leading `DELETE` makes
the table exactly the rows this run inserts). -/
def runReconciliation (records : List StoredRecord) : List ReconciledRow :=
  (reconcileJoin records).map fun ps =>
    { paymentsRecordId := ps.1.id
      settlementsRecordId := ps.2.id
      orderId := ps.1.orderId
      amountDifference := ps.1.totalAmount - ps.2.totalAmount }

/-- One `config.DB.Exec(INSERT INTO reconciled_records ...)` call against a
store in which the insert of row `r` fails when `insFails r`: the first
component is the table content afterwards, the second is the error value
that `RunReconciliation` receives back (and discards). -/
def dbExecInsertReconciled (insFails : ReconciledRow → Bool)
    (table : List ReconciledRow) (r : ReconciledRow) : List ReconciledRow × Option Unit :=
  if insFails r then (table, some ()) else (table ++ [r], none)

/-- Embedding of `RunReconciliation` against a fallible store: `queryFails`
models an error from `config.DB.Query` (returned to the caller); the insert
loop calls `config.DB.Exec` for every matched pair and drops its result, as
the Go source does, then the function returns nil. The payload of a
successful run is the final `reconciled_records` content. -/
def RunReconciliationE (queryFails : Bool) (insFails : ReconciledRow → Bool)
    (records : List StoredRecord) : Except Unit (List ReconciledRow) :=
  if queryFails then .error ()
  else
    .ok ((runReconciliation records).foldl
      (fun table r => (dbExecInsertReconciled insFails table r).1) [])

/-- Embedding of the `BatchRecord` struct (src/db/batch.go). -/
structure BatchRecord where
  source : String
  orderId : String
  date : GoTime
  totalAmount : Rat
  rawData : String
deriving DecidableEq

/-- Loop body of `createBatches` (src/db/batch.go, both the plain and the
prepared variant have identical code): starting at index `i` (represented by
the suffix `records[i:]`), take `records[i : i+batchSize]` as the next batch
and continue at `i + batchSize`. The fuel argument bounds the number of
iterations; the caller passes the record count, which is enough iterations
whenever `batchSize ≥ 1` (for `batchSize = 0` the Go loop would not
terminate, a case the constructors rule out). -/
def createBatchesLoop (batchSize : Nat) : Nat → List BatchRecord → List (List BatchRecord)
  | 0, _ => []
  | _ + 1, [] => []
  | fuel + 1, r :: rs => ((r :: rs).take batchSize) :: createBatchesLoop batchSize fuel ((r :: rs).drop batchSize)

/-- Embedding of `BatchInserter.createBatches` / `PreparedBatchInserter.createBatches`
(src/db/batch.go). -/
def createBatches (batchSize : Nat) (records : List BatchRecord) : List (List BatchRecord) :=
  createBatchesLoop batchSize records.length records

/-- Sizing state of a `BatchInserter` (src/db/batch.go); the `db` handle and
the mutex carry no sizing information and are not modelled. -/
structure BatchInserter where
  batchSize : Int
  workers : Int
deriving DecidableEq

/-- Embedding of `NewBatchInserter` (src/db/batch.go): out-of-range sizing
arguments are silently replaced by the defaults 1000 and 4. -/
def NewBatchInserter (batchSize workers : Int) : BatchInserter :=
  { batchSize := if batchSize ≤ 0 then 1000 else batchSize
    workers := if workers ≤ 0 then 4 else workers }

/-- Sizing state of a `PreparedBatchInserter` (src/db/batch.go). -/
structure PreparedBatchInserter where
  batchSize : Int
  workers : Int
deriving DecidableEq

/-- Embedding of `NewPreparedBatchInserter` (src/db/batch.go): the defaults
are substituted first; the only failure is `db.Preparex` failing, modelled
by `prepareFails`. -/
def NewPreparedBatchInserter (prepareFails : Bool) (batchSize workers : Int) :
    Option PreparedBatchInserter :=
  let b := if batchSize ≤ 0 then 1000 else batchSize
  let w := if workers ≤ 0 then 4 else workers
  if prepareFails then none else some { batchSize := b, workers := w }

/-- Sizing state of a `StreamingBatchInserter` (src/db/batch.go). -/
structure StreamingBatchInserter where
  batchSize : Int
  workers : Int
deriving DecidableEq

/-- Embedding of `NewStreamingBatchInserter` (src/db/batch.go), identical in
shape to `NewPreparedBatchInserter`. -/
def NewStreamingBatchInserter (prepareFails : Bool) (batchSize workers : Int) :
    Option StreamingBatchInserter :=
  let b := if batchSize ≤ 0 then 1000 else batchSize
  let w := if workers ≤ 0 then 4 else workers
  if prepareFails then none else some { batchSize := b, workers := w }

/-- Per-record insert loop of `PreparedBatchInserter.insertBatch` /
`StreamingBatchInserter.insertBatch` inside the open transaction: `txRows`
is the transaction's working view of the `records` table; a record whose
insert fails (`insFails r`) makes the loop return the error immediately. -/
def txInsertLoop (insFails : BatchRecord → Bool) :
    List BatchRecord → List BatchRecord → Except Unit (List BatchRecord)
  | txRows, [] => .ok txRows
  | txRows, r :: rs =>
    if insFails r then .error () else txInsertLoop insFails (txRows ++ [r]) rs

/-- Embedding of `PreparedBatchInserter.insertBatch` (src/db/batch.go; the
streaming variant is verbatim identical): an empty batch returns at once;
otherwise a transaction is opened, each record is inserted through the
prepared statement, and on any per-record error the deferred `tx.Rollback()`
discards the transaction (the store keeps its pre-transaction content) and
the error is returned; with no error `tx.Commit()` publishes all rows.
Result: the `records` table afterwards, and the surfaced error if any. -/
def preparedInsertBatch (insFails : BatchRecord → Bool)
    (table : List BatchRecord) (batch : List BatchRecord) :
    List BatchRecord × Option Unit :=
  if batch.isEmpty then (table, none)
  else
    match txInsertLoop insFails table batch with
    | .ok committed => (committed, none)
    | .error e => (table, some e)

/-- Embedding of `BatchInserter.insertBatch` (src/db/batch.go): the whole
batch is sent as one multi-row `INSERT ... VALUES (...), (...)` statement,
so the store applies all rows or none; `execFails` models the single
`db.Exec` call failing. -/
def adhocInsertBatch (execFails : Bool) (table : List BatchRecord)
    (batch : List BatchRecord) : List BatchRecord × Option Unit :=
  if batch.isEmpty then (table, none)
  else if execFails then (table, some ()) else (table ++ batch, none)

/-- Membership in the reconciliation output, characterised by the matched
pair of stored records it was produced from. -/
theorem mem_runReconciliation (records : List StoredRecord) (r : ReconciledRow) :
    r ∈ runReconciliation records ↔
      ∃ p, p ∈ records ∧ ∃ s, s ∈ records ∧
        p.source = "payments" ∧ s.source = "settlements" ∧ p.orderId = s.orderId ∧
        r = ⟨p.id, s.id, p.orderId, p.totalAmount - s.totalAmount⟩ := by
  constructor
  · intro hr
    simp only [runReconciliation, List.mem_map] at hr
    obtain ⟨ps, hps, hr⟩ := hr
    simp only [reconcileJoin, List.mem_flatMap, List.mem_filter, List.mem_map,
      Bool.and_eq_true, beq_iff_eq] at hps
    obtain ⟨p, ⟨hpmem, hpsrc⟩, s, ⟨hsmem, hssrc, hkey⟩, hps⟩ := hps
    refine ⟨p, hpmem, s, hsmem, hpsrc, hssrc, hkey, ?_⟩
    rw [← hr, ← hps]
  · rintro ⟨p, hpmem, s, hsmem, hpsrc, hssrc, hkey, rfl⟩
    simp only [runReconciliation, List.mem_map]
    refine ⟨(p, s), ?_, rfl⟩
    simp only [reconcileJoin, List.mem_flatMap, List.mem_filter, List.mem_map,
      Bool.and_eq_true, beq_iff_eq]
    exact ⟨p, ⟨hpmem, hpsrc⟩, s, ⟨hsmem, hssrc, hkey⟩, rfl⟩

/-- Claim C1: after a reconciliation run over a persisted record set, a
`ReconciliationResult` row exists for an order key `K` if and only if the
records table contains at least one row with source `payments` and order key
`K` and at least one row with source `settlements` and order key `K`; every
such matched pair yields a stored row whose `amount_difference` is the
payments row's total minus the settlements row's total (signed), and every
stored row arises from such a pair with exactly that difference. -/
theorem reconciliation_inner_join_and_difference (records : List StoredRecord) (K : String) :
    ((∃ r ∈ runReconciliation records, r.orderId = K) ↔
      ((∃ p ∈ records, p.source = "payments" ∧ p.orderId = K) ∧
       (∃ s ∈ records, s.source = "settlements" ∧ s.orderId = K)))
    ∧ (∀ p ∈ records, ∀ s ∈ records,
        p.source = "payments" → s.source = "settlements" →
        p.orderId = K → s.orderId = K →
        ∃ r ∈ runReconciliation records,
          r.paymentsRecordId = p.id ∧ r.settlementsRecordId = s.id ∧
          r.orderId = K ∧ r.amountDifference = p.totalAmount - s.totalAmount)
    ∧ (∀ r ∈ runReconciliation records,
        ∃ p ∈ records, ∃ s ∈ records,
          p.source = "payments" ∧ s.source = "settlements" ∧
          p.orderId = r.orderId ∧ s.orderId = r.orderId ∧
          r.paymentsRecordId = p.id ∧ r.settlementsRecordId = s.id ∧
          r.amountDifference = p.totalAmount - s.totalAmount) := by
  refine ⟨⟨?_, ?_⟩, ?_, ?_⟩
  · rintro ⟨r, hr, hK⟩
    rw [mem_runReconciliation] at hr
    obtain ⟨p, hp, s, hs, hpsrc, hssrc, hkey, rfl⟩ := hr
    exact ⟨⟨p, hp, hpsrc, hK⟩, ⟨s, hs, hssrc, by rw [← hkey]; exact hK⟩⟩
  · rintro ⟨⟨p, hp, hpsrc, hpK⟩, ⟨s, hs, hssrc, hsK⟩⟩
    refine ⟨⟨p.id, s.id, p.orderId, p.totalAmount - s.totalAmount⟩, ?_, hpK⟩
    rw [mem_runReconciliation]
    exact ⟨p, hp, s, hs, hpsrc, hssrc, by rw [hpK, hsK], rfl⟩
  · intro p hp s hs hpsrc hssrc hpK hsK
    refine ⟨⟨p.id, s.id, p.orderId, p.totalAmount - s.totalAmount⟩, ?_, rfl, rfl, hpK, rfl⟩
    rw [mem_runReconciliation]
    exact ⟨p, hp, s, hs, hpsrc, hssrc, by rw [hpK, hsK], rfl⟩
  · intro r hr
    rw [mem_runReconciliation] at hr
    obtain ⟨p, hp, s, hs, hpsrc, hssrc, hkey, rfl⟩ := hr
    exact ⟨p, hp, s, hs, hpsrc, hssrc, rfl, hkey.symm, rfl, rfl, rfl⟩

/-- Sum of the `amount` fields of the line items bearing order key `K`. -/
def sumAmounts (ss : List Settlement) (K : String) : Rat :=
  ((ss.filter fun s => s.orderId == K).map Settlement.amount).sum

/-- Updating key `k` changes its total to the old total (0 when absent)
plus `v`. -/
theorem mapLookup_upsert_self (m : List (String × Rat)) (k : String) (v : Rat) :
    mapLookup (mapUpsertAdd m k v) k = some ((mapLookup m k).getD 0 + v) := by
  induction m with
  | nil => simp [mapUpsertAdd, mapLookup]
  | cons hd tl ih =>
    obtain ⟨ka, va⟩ := hd
    by_cases hk : ka = k
    · subst hk
      simp [mapUpsertAdd, mapLookup]
    · simp [mapUpsertAdd, mapLookup, hk, ih]

/-- Updating key `k` leaves every other key's total unchanged. -/
theorem mapLookup_upsert_ne (m : List (String × Rat)) (k : String) (v : Rat)
    (q : String) (hq : q ≠ k) :
    mapLookup (mapUpsertAdd m k v) q = mapLookup m q := by
  have hkq : ¬(k = q) := fun h => hq h.symm
  induction m with
  | nil => simp [mapUpsertAdd, mapLookup, hkq]
  | cons hd tl ih =>
    obtain ⟨ka, va⟩ := hd
    by_cases hk : ka = k
    · have hkaq : ¬(ka = q) := by rw [hk]; exact hkq
      simp [mapUpsertAdd, mapLookup, hk, hkaq, hkq]
    · simp [mapUpsertAdd, mapLookup, hk, ih]

/-- Every key of the updated map is the updated key or a key of the old map. -/
theorem mapUpsertAdd_keys (m : List (String × Rat)) (k : String) (v : Rat) :
    ∀ p ∈ mapUpsertAdd m k v, p.1 = k ∨ ∃ q ∈ m, p.1 = q.1 := by
  induction m with
  | nil =>
    intro p hp
    simp only [mapUpsertAdd, List.mem_singleton] at hp
    subst hp
    exact Or.inl rfl
  | cons hd tl ih =>
    obtain ⟨ka, va⟩ := hd
    intro p hp
    by_cases hk : ka = k
    · have hunf : mapUpsertAdd ((ka, va) :: tl) k v = (ka, va + v) :: tl := by
        simp [mapUpsertAdd, hk]
      rw [hunf] at hp
      rcases List.mem_cons.mp hp with rfl | hp
      · exact Or.inl hk
      · exact Or.inr ⟨p, List.mem_cons_of_mem _ hp, rfl⟩
    · have hunf : mapUpsertAdd ((ka, va) :: tl) k v = (ka, va) :: mapUpsertAdd tl k v := by
        simp [mapUpsertAdd, hk]
      rw [hunf] at hp
      rcases List.mem_cons.mp hp with rfl | hp
      · exact Or.inr ⟨(ka, va), List.mem_cons_self _ _, rfl⟩
      · rcases ih p hp with h | ⟨q, hq, hpq⟩
        · exact Or.inl h
        · exact Or.inr ⟨q, List.mem_cons_of_mem _ hq, hpq⟩

/-- Invariant of the aggregation fold: for a fixed non-empty key `K`, the
total recorded after scanning `ss` starting from `acc` is `acc`'s total plus
the sum over `ss`, and the key is present exactly when it was present in
`acc` or occurs in `ss`. -/
theorem aggregate_fold_lookup (K : String) (hK : K ≠ "") :
    ∀ (ss : List Settlement) (acc : List (String × Rat)),
      mapLookup
        (ss.foldl
          (fun orderTotals s =>
            if s.orderId ≠ "" then mapUpsertAdd orderTotals s.orderId s.amount
            else orderTotals)
          acc) K =
      (match mapLookup acc K with
       | some v => some (v + sumAmounts ss K)
       | none => if ss.any (fun s => s.orderId == K) then some (sumAmounts ss K) else none) := by
  intro ss
  induction ss with
  | nil =>
    intro acc
    cases h : mapLookup acc K <;> simp [sumAmounts, h]
  | cons s ss ih =>
    intro acc
    rw [List.foldl_cons]
    by_cases hempty : s.orderId = ""
    · have hne : s.orderId ≠ K := fun h => hK (hempty ▸ h.symm)
      have hbeq : (s.orderId == K) = false := beq_eq_false_iff_ne.mpr hne
      rw [if_neg (by simp [hempty]), ih acc]
      simp [sumAmounts, hbeq]
    · rw [if_pos hempty, ih (mapUpsertAdd acc s.orderId s.amount)]
      by_cases hk : s.orderId = K
      · subst hk
        rw [mapLookup_upsert_self]
        cases h : mapLookup acc s.orderId with
        | none => simp [sumAmounts, h, add_assoc]
        | some v => simp [sumAmounts, h, add_assoc]
      · have hbeq : (s.orderId == K) = false := beq_eq_false_iff_ne.mpr hk
        rw [mapLookup_upsert_ne _ _ _ _ (fun h => hk h.symm)]
        cases h : mapLookup acc K <;> simp [sumAmounts, h, hbeq]

/-- Keys produced by the aggregation fold are non-empty when the
accumulator's keys are. -/
theorem aggregate_fold_keys :
    ∀ (ss : List Settlement) (acc : List (String × Rat)),
      (∀ p ∈ acc, p.1 ≠ "") →
      ∀ p ∈ ss.foldl
          (fun orderTotals s =>
            if s.orderId ≠ "" then mapUpsertAdd orderTotals s.orderId s.amount
            else orderTotals)
          acc, p.1 ≠ "" := by
  intro ss
  induction ss with
  | nil => intro acc hacc; simpa using hacc
  | cons s ss ih =>
    intro acc hacc
    rw [List.foldl_cons]
    by_cases hempty : s.orderId = ""
    · rw [if_neg (by simp [hempty])]
      exact ih acc hacc
    · rw [if_pos hempty]
      refine ih _ ?_
      intro p hp
      rcases mapUpsertAdd_keys acc s.orderId s.amount p hp with h | ⟨q, hq, hpq⟩
      · rw [h]; exact hempty
      · rw [hpq]; exact hacc q hq

/-- Claim C2: the aggregation maps each non-empty order key `K` to exactly
the sum of the `amount` fields of all line items bearing `K` (and records no
total at all for a key occurring in no item), and the empty order key never
appears in the output. -/
theorem aggregate_settlements_sum_no_empty_key (ss : List Settlement) (K : String)
    (hK : K ≠ "") :
    mapLookup (AggregateSettlementsByOrderID ss) K =
      (if ss.any (fun s => s.orderId == K) then some (sumAmounts ss K) else none)
    ∧ ∀ p ∈ AggregateSettlementsByOrderID ss, p.1 ≠ "" := by
  constructor
  · rw [AggregateSettlementsByOrderID, aggregate_fold_lookup K hK ss []]
    simp [mapLookup]
  · exact aggregate_fold_keys ss [] (by simp)

/-- Witness for claim C2 at a concrete input: two line items for order `A`
with amounts 60 and 40 and one empty-keyed item; the aggregation holds total
100 for `A` and contains no empty key. -/
theorem aggregate_settlements_sum_no_empty_key_witness :
    mapLookup (AggregateSettlementsByOrderID
        [⟨"s1", "A", 0, 60, 0⟩, ⟨"s1", "A", 0, 40, 0⟩, ⟨"s2", "", 0, 7, 0⟩]) "A" =
      (if ([⟨"s1", "A", 0, 60, 0⟩, ⟨"s1", "A", 0, 40, 0⟩, ⟨"s2", "", 0, 7, 0⟩] :
            List Settlement).any (fun s => s.orderId == "A")
       then some (sumAmounts
         [⟨"s1", "A", 0, 60, 0⟩, ⟨"s1", "A", 0, 40, 0⟩, ⟨"s2", "", 0, 7, 0⟩] "A")
       else none)
    ∧ ∀ p ∈ AggregateSettlementsByOrderID
        [⟨"s1", "A", 0, 60, 0⟩, ⟨"s1", "A", 0, 40, 0⟩, ⟨"s2", "", 0, 7, 0⟩], p.1 ≠ "" :=
  aggregate_settlements_sum_no_empty_key _ "A" (by decide)

/-- The batch loop on an empty suffix yields no batches, for any fuel. -/
theorem createBatchesLoop_nil (b : Nat) (fuel : Nat) :
    createBatchesLoop b fuel [] = [] := by
  cases fuel <;> simp [createBatchesLoop]

/-- Concatenating the batches of the loop reproduces the records, given
enough fuel and a positive batch size. -/
theorem createBatchesLoop_flatten (b : Nat) (hb : 0 < b) :
    ∀ (fuel : Nat) (records : List BatchRecord), records.length ≤ fuel →
      (createBatchesLoop b fuel records).flatten = records := by
  intro fuel
  induction fuel with
  | zero =>
    intro records h
    have : records = [] := List.length_eq_zero.mp (Nat.le_zero.mp h)
    subst this
    simp [createBatchesLoop]
  | succ n ih =>
    intro records h
    cases records with
    | nil => simp [createBatchesLoop]
    | cons r rs =>
      have hlen : ((r :: rs).drop b).length ≤ n := by
        simp only [List.length_drop, List.length_cons]
        simp only [List.length_cons] at h
        omega
      simp only [createBatchesLoop, List.flatten_cons, ih _ hlen]
      exact List.take_append_drop b (r :: rs)

/-- Every batch produced by the loop has at most `b` records and, when the
batch size is positive, at least one. -/
theorem createBatchesLoop_batch_size (b : Nat) (hb : 0 < b) :
    ∀ (fuel : Nat) (records : List BatchRecord),
      ∀ batch ∈ createBatchesLoop b fuel records, batch.length ≤ b ∧ batch ≠ [] := by
  intro fuel
  induction fuel with
  | zero => intro records batch hbatch; simp [createBatchesLoop] at hbatch
  | succ n ih =>
    intro records batch hbatch
    cases records with
    | nil => simp [createBatchesLoop] at hbatch
    | cons r rs =>
      simp only [createBatchesLoop, List.mem_cons] at hbatch
      rcases hbatch with rfl | hbatch
      · constructor
        · simp only [List.length_take]
          omega
        · have : 0 < ((r :: rs).take b).length := by
            simp only [List.length_take, List.length_cons]
            omega
          exact List.ne_nil_of_length_pos this
      · exact ih _ batch hbatch

/-- Every batch before the last one is exactly full, given enough fuel. -/
theorem createBatchesLoop_full (b : Nat) (hb : 0 < b) :
    ∀ (fuel : Nat) (records : List BatchRecord), records.length ≤ fuel →
      ∀ i, i + 1 < (createBatchesLoop b fuel records).length →
        ((createBatchesLoop b fuel records).getD i []).length = b := by
  intro fuel
  induction fuel with
  | zero => intro records h i hi; simp [createBatchesLoop] at hi
  | succ n ih =>
    intro records h i hi
    cases records with
    | nil => simp [createBatchesLoop] at hi
    | cons r rs =>
      simp only [createBatchesLoop, List.length_cons] at hi
      have hlen : ((r :: rs).drop b).length ≤ n := by
        simp only [List.length_drop, List.length_cons]
        simp only [List.length_cons] at h
        omega
      cases i with
      | zero =>
        have htail : createBatchesLoop b n ((r :: rs).drop b) ≠ [] := by
          intro hnil
          rw [hnil] at hi
          simp at hi
        have hdrop : (r :: rs).drop b ≠ [] := by
          intro hnil
          rw [hnil, createBatchesLoop_nil] at htail
          exact htail rfl
        have hblt : b < (r :: rs).length := by
          by_contra hge
          exact hdrop (List.drop_eq_nil_of_le (Nat.le_of_not_lt hge))
        simp only [createBatchesLoop, List.getD_cons_zero, List.length_take]
        omega
      | succ j =>
        simp only [createBatchesLoop, List.getD_cons_succ]
        refine ih _ hlen j ?_
        omega

/-- Claim C3: for every record list and every `batchSize ≥ 1`, the batch
partitioning produces contiguous batches of at most `batchSize` records
each, every batch is non-empty and only the last may be smaller than
`batchSize`, and concatenating the batches in order reproduces the input
list exactly (so no record is dropped, duplicated or reordered). -/
theorem createBatches_partition (batchSize : Nat) (hb : 0 < batchSize)
    (records : List BatchRecord) :
    (createBatches batchSize records).flatten = records
    ∧ (∀ batch ∈ createBatches batchSize records, batch.length ≤ batchSize ∧ batch ≠ [])
    ∧ (∀ i, i + 1 < (createBatches batchSize records).length →
        ((createBatches batchSize records).getD i []).length = batchSize) :=
  ⟨createBatchesLoop_flatten batchSize hb records.length records le_rfl,
   createBatchesLoop_batch_size batchSize hb records.length records,
   createBatchesLoop_full batchSize hb records.length records le_rfl⟩

/-- Witness for claim C3: batch size 2 on a concrete five-record list
(the singleton and empty-list cases are instances of the same theorem). -/
theorem createBatches_partition_witness :
    (0 < 2)
    ∧ ((createBatches 2 [⟨"payments", "A", 0, 1, ""⟩, ⟨"payments", "B", 0, 2, ""⟩,
          ⟨"payments", "C", 0, 3, ""⟩, ⟨"payments", "D", 0, 4, ""⟩,
          ⟨"payments", "E", 0, 5, ""⟩]).flatten =
        [⟨"payments", "A", 0, 1, ""⟩, ⟨"payments", "B", 0, 2, ""⟩,
         ⟨"payments", "C", 0, 3, ""⟩, ⟨"payments", "D", 0, 4, ""⟩,
         ⟨"payments", "E", 0, 5, ""⟩]) :=
  ⟨by decide,
   (createBatches_partition 2 (by decide)
     [⟨"payments", "A", 0, 1, ""⟩, ⟨"payments", "B", 0, 2, ""⟩,
      ⟨"payments", "C", 0, 3, ""⟩, ⟨"payments", "D", 0, 4, ""⟩,
      ⟨"payments", "E", 0, 5, ""⟩]).1⟩

/-- The per-record transaction loop appends every row when no insert fails,
and stops with the error as soon as one does. -/
theorem txInsertLoop_spec (insFails : BatchRecord → Bool) :
    ∀ (batch txRows : List BatchRecord),
      (batch.any insFails = false → txInsertLoop insFails txRows batch = .ok (txRows ++ batch))
      ∧ (batch.any insFails = true → txInsertLoop insFails txRows batch = .error ()) := by
  intro batch
  induction batch with
  | nil =>
    intro txRows
    refine ⟨fun _ => by simp [txInsertLoop], fun h => by simp at h⟩
  | cons r rs ih =>
    intro txRows
    refine ⟨?_, ?_⟩
    · intro hall
      rw [List.any_cons, Bool.or_eq_false_iff] at hall
      have hstep : txInsertLoop insFails txRows (r :: rs) =
          txInsertLoop insFails (txRows ++ [r]) rs := by
        simp [txInsertLoop, hall.1]
      rw [hstep, (ih (txRows ++ [r])).1 hall.2, List.append_assoc, List.singleton_append]
    · intro hany
      rw [List.any_cons, Bool.or_eq_true] at hany
      by_cases hr : insFails r = true
      · simp [txInsertLoop, hr]
      · have hrf : insFails r = false := Bool.eq_false_iff.mpr hr
        have hrs : rs.any insFails = true := by
          rcases hany with h | h
          · exact absurd h hr
          · exact h
        simp [txInsertLoop, hrf, (ih (txRows ++ [r])).2 hrs]

/-- Claim C4: each batch insert is atomic. For the prepared-statement
variant, when any per-record insert in the batch fails the whole transaction
is rolled back (the table keeps exactly its prior rows) and the error is
surfaced, and when none fails the commit publishes every row of the batch;
the ad-hoc variant sends the batch as one statement, which the store applies
entirely or not at all. -/
theorem insertBatch_atomic (insFails : BatchRecord → Bool) (execFails : Bool)
    (table batch : List BatchRecord) :
    (batch.any insFails = true → preparedInsertBatch insFails table batch = (table, some ()))
    ∧ (batch.any insFails = false →
        preparedInsertBatch insFails table batch = (table ++ batch, none))
    ∧ adhocInsertBatch execFails table batch =
        (if execFails = true ∧ batch ≠ [] then (table, some ()) else (table ++ batch, none)) := by
  refine ⟨?_, ?_, ?_⟩
  · intro hany
    cases batch with
    | nil => simp at hany
    | cons r rs =>
      rw [preparedInsertBatch, if_neg (by simp)]
      rw [(txInsertLoop_spec insFails (r :: rs) table).2 hany]
  · intro hall
    cases batch with
    | nil => simp [preparedInsertBatch]
    | cons r rs =>
      rw [preparedInsertBatch, if_neg (by simp)]
      rw [(txInsertLoop_spec insFails (r :: rs) table).1 hall]
  · by_cases hb : batch = []
    · subst hb
      simp [adhocInsertBatch]
    · cases execFails
      · simp [adhocInsertBatch, hb]
      · simp [adhocInsertBatch, hb]

section ConcreteEvaluation

attribute [local semireducible] Rat.add Rat.sub Rat.mul Rat.inv

/-- A zero-length row is never normalized into a payment with a non-empty
order key: with no headers the field map is empty (so the order key is the
Go zero string), and with at least one header the length check fails. -/
theorem PaymentFromCSVRow_nil_row (p1 p2 : String → Option GoTime) (now : GoTime)
    (headers : List String) (payment : Payment)
    (h : PaymentFromCSVRow p1 p2 now headers [] = some payment) :
    payment.orderId = "" := by
  cases headers with
  | nil =>
    rw [PaymentFromCSVRow, if_neg (by simp)] at h
    obtain rfl := Option.some_injective _ h
    rfl
  | cons a hs =>
    rw [PaymentFromCSVRow, if_pos (by simp)] at h
    exact absurd h (by simp)

/-- Claim C5: a payment data row is accepted into the stored output if and
only if normalization succeeds, the normalized order key is non-empty and
the normalized total is non-zero; an accepted row is stored as a `payments`
record carrying the normalized key, date and total; and in particular a
concrete row with total `0.00` is dropped. -/
theorem payment_row_acceptance (p1 p2 : String → Option GoTime) (now : GoTime)
    (headers row : List String) :
    ((processPaymentRow p1 p2 now headers row).isSome ↔
      (∃ payment, PaymentFromCSVRow p1 p2 now headers row = some payment ∧
        payment.orderId ≠ "" ∧ payment.total ≠ 0))
    ∧ (∀ insRow, processPaymentRow p1 p2 now headers row = some insRow →
        ∃ payment, PaymentFromCSVRow p1 p2 now headers row = some payment ∧
          insRow = ⟨"payments", payment.orderId, payment.date, payment.total⟩)
    ∧ processPaymentRow (fun _ => none) (fun _ => none) 0
        ["date/time", "order id", "total"] ["May 1 2024", "ORD003", "0.00"] = none := by
  have hkey : ∀ payment, ¬ row.length = 0 →
      PaymentFromCSVRow p1 p2 now headers row = some payment →
      processPaymentRow p1 p2 now headers row =
        (if payment.orderId = "" ∨ payment.total = 0 then none
         else some ⟨"payments", payment.orderId, payment.date, payment.total⟩) := by
    intro payment hlen hpay
    rw [processPaymentRow, if_neg hlen, hpay]
  have hnone : ¬ row.length = 0 →
      PaymentFromCSVRow p1 p2 now headers row = none →
      processPaymentRow p1 p2 now headers row = none := by
    intro hlen hpay
    rw [processPaymentRow, if_neg hlen, hpay]
  refine ⟨⟨?_, ?_⟩, ?_, ?_⟩
  · intro hsome
    by_cases hlen : row.length = 0
    · rw [processPaymentRow, if_pos hlen] at hsome
      simp at hsome
    · cases hpay : PaymentFromCSVRow p1 p2 now headers row with
      | none =>
        rw [hnone hlen hpay] at hsome
        simp at hsome
      | some payment =>
        rw [hkey payment hlen hpay] at hsome
        by_cases hrej : payment.orderId = "" ∨ payment.total = 0
        · rw [if_pos hrej] at hsome
          simp at hsome
        · push_neg at hrej
          exact ⟨payment, rfl, hrej.1, hrej.2⟩
  · rintro ⟨payment, hpay, hoid, htot⟩
    have hlen : ¬ row.length = 0 := by
      intro h0
      obtain rfl := List.length_eq_zero.mp h0
      exact hoid (PaymentFromCSVRow_nil_row p1 p2 now headers payment hpay)
    rw [hkey payment hlen hpay, if_neg (by push_neg; exact ⟨hoid, htot⟩)]
    simp
  · intro insRow hins
    by_cases hlen : row.length = 0
    · rw [processPaymentRow, if_pos hlen] at hins
      simp at hins
    · cases hpay : PaymentFromCSVRow p1 p2 now headers row with
      | none =>
        rw [hnone hlen hpay] at hins
        simp at hins
      | some payment =>
        rw [hkey payment hlen hpay] at hins
        by_cases hrej : payment.orderId = "" ∨ payment.total = 0
        · rw [if_pos hrej] at hins
          simp at hins
        · rw [if_neg hrej] at hins
          obtain rfl := Option.some_injective _ hins.symm
          exact ⟨payment, rfl, rfl⟩
  · decide

/-- Claim C6: numeric parsing in both normalizers is total and never
surfaces an error; the empty string and every string the float parser
rejects yield exactly 0. -/
theorem numeric_parse_total_default_zero (s : String)
    (h : s = "" ∨ strconvParseFloat s = none) :
    parseFloat s = 0 ∧ parseSettlementFloat s = 0 := by
  rcases h with rfl | h
  · exact ⟨rfl, rfl⟩
  · by_cases hs : s = ""
    · subst hs
      exact ⟨rfl, rfl⟩
    · rw [parseFloat, parseSettlementFloat, if_neg hs, h]
      exact ⟨rfl, rfl⟩

/-- Witness for claim C6: the malformed numeric string `12.3.4` is rejected
by the float parser, and both normalizers coerce it to 0. -/
theorem numeric_parse_total_default_zero_witness :
    (("12.3.4" = "" ∨ strconvParseFloat "12.3.4" = none))
    ∧ parseFloat "12.3.4" = 0 ∧ parseSettlementFloat "12.3.4" = 0 :=
  ⟨Or.inr (by decide),
   numeric_parse_total_default_zero "12.3.4" (Or.inr (by decide))⟩

/-- Counterexample to claim C7 as stated: a payment row whose `date/time`
field is empty. Both layout parsers (which, like Go `time.Parse` on an empty
input, fail on every string here) fail on the row's date field, yet the
normalized record's timestamp is the zero time 0, not the wall clock 1: the
code skips the whole parse-with-fallback block when the field is empty. -/
theorem payment_date_empty_field_counterexample :
    ((fun _ : String => (none : Option GoTime)) "" = none)
    ∧ ((PaymentFromCSVRow (fun _ => none) (fun _ => none) 1
          ["date/time", "order id", "total"] ["", "ORD1", "5"]).map Payment.date = some 0)
    ∧ ((0 : GoTime) ≠ 1) :=
  ⟨rfl, by decide, by decide⟩

/-- Case analysis of the payment date block: zero time for an empty field,
otherwise primary layout, then fallback layout, then the current time. -/
theorem parsePaymentDate_cases (p1 p2 : String → Option GoTime) (now : GoTime) (ds : String) :
    (ds = "" → parsePaymentDate p1 p2 now ds = 0)
    ∧ (∀ t, ds ≠ "" → p1 ds = some t → parsePaymentDate p1 p2 now ds = t)
    ∧ (∀ t, ds ≠ "" → p1 ds = none → p2 ds = some t → parsePaymentDate p1 p2 now ds = t)
    ∧ (ds ≠ "" → p1 ds = none → p2 ds = none → parsePaymentDate p1 p2 now ds = now) := by
  refine ⟨?_, ?_, ?_, ?_⟩
  · intro h
    simp [parsePaymentDate, h]
  · intro t h h1
    simp [parsePaymentDate, h, h1]
  · intro t h h1 h2
    simp [parsePaymentDate, h, h1, h2]
  · intro h h1 h2
    simp [parsePaymentDate, h, h1, h2]

/-- The settlement date block is code-identical to the payment date block. -/
theorem parseSettlementDate_eq_parsePaymentDate :
    parseSettlementDate = parsePaymentDate := rfl

/-- The date stored in a normalized payment is exactly the date block's
result on the row's `date/time` field. -/
theorem PaymentFromCSVRow_date (p1 p2 : String → Option GoTime) (now : GoTime)
    (headers row : List String) (payment : Payment)
    (h : PaymentFromCSVRow p1 p2 now headers row = some payment) :
    payment.date = parsePaymentDate p1 p2 now (mapGetD (buildDataMap headers row) "date/time") := by
  rw [PaymentFromCSVRow] at h
  by_cases hlen : row.length < headers.length
  · rw [if_pos hlen] at h
    exact absurd h (by simp)
  · rw [if_neg hlen] at h
    obtain rfl := Option.some_injective _ h
    rfl

/-- The timestamp stored in a normalized settlement is exactly the date
block's result on the row's `posted-date-time` field. -/
theorem SettlementFromTSVRow_date (q1 q2 : String → Option GoTime) (now : GoTime)
    (headers row : List String) (stl : Settlement)
    (h : SettlementFromTSVRow q1 q2 now headers row = some stl) :
    stl.postedDateTime =
      parseSettlementDate q1 q2 now (mapGetD (buildDataMap headers row) "posted-date-time") := by
  rw [SettlementFromTSVRow] at h
  by_cases hlen : row.length < headers.length
  · rw [if_pos hlen] at h
    exact absurd h (by simp)
  · rw [if_neg hlen] at h
    obtain rfl := Option.some_injective _ h
    rfl

/-- Claim C7 (amended): for every accepted row, when the date field
(`date/time` for payments, `posted-date-time` for settlements) is non-empty
the stored timestamp is the primary layout's result, else the fallback
layout's result, else the current wall-clock time; when the date field is
empty or absent, no parse is attempted and the stored timestamp is the Go
zero time, not the current time. -/
theorem normalize_date_fallback_amended (p1 p2 q1 q2 : String → Option GoTime)
    (now : GoTime) (headers row : List String) :
    (∀ payment, PaymentFromCSVRow p1 p2 now headers row = some payment →
      ((mapGetD (buildDataMap headers row) "date/time" = "" → payment.date = 0)
       ∧ (∀ t, mapGetD (buildDataMap headers row) "date/time" ≠ "" →
            p1 (mapGetD (buildDataMap headers row) "date/time") = some t →
            payment.date = t)
       ∧ (∀ t, mapGetD (buildDataMap headers row) "date/time" ≠ "" →
            p1 (mapGetD (buildDataMap headers row) "date/time") = none →
            p2 (mapGetD (buildDataMap headers row) "date/time") = some t →
            payment.date = t)
       ∧ (mapGetD (buildDataMap headers row) "date/time" ≠ "" →
            p1 (mapGetD (buildDataMap headers row) "date/time") = none →
            p2 (mapGetD (buildDataMap headers row) "date/time") = none →
            payment.date = now)))
    ∧ (∀ stl, SettlementFromTSVRow q1 q2 now headers row = some stl →
      ((mapGetD (buildDataMap headers row) "posted-date-time" = "" → stl.postedDateTime = 0)
       ∧ (∀ t, mapGetD (buildDataMap headers row) "posted-date-time" ≠ "" →
            q1 (mapGetD (buildDataMap headers row) "posted-date-time") = some t →
            stl.postedDateTime = t)
       ∧ (∀ t, mapGetD (buildDataMap headers row) "posted-date-time" ≠ "" →
            q1 (mapGetD (buildDataMap headers row) "posted-date-time") = none →
            q2 (mapGetD (buildDataMap headers row) "posted-date-time") = some t →
            stl.postedDateTime = t)
       ∧ (mapGetD (buildDataMap headers row) "posted-date-time" ≠ "" →
            q1 (mapGetD (buildDataMap headers row) "posted-date-time") = none →
            q2 (mapGetD (buildDataMap headers row) "posted-date-time") = none →
            stl.postedDateTime = now))) := by
  constructor
  · intro payment hpay
    rw [PaymentFromCSVRow_date p1 p2 now headers row payment hpay]
    exact parsePaymentDate_cases p1 p2 now _
  · intro stl hstl
    rw [SettlementFromTSVRow_date q1 q2 now headers row stl hstl,
      parseSettlementDate_eq_parsePaymentDate]
    exact parsePaymentDate_cases q1 q2 now _

/-- Header scan with no marker in the window: when the source still has a
line for every read the loop makes, the scan ends with headers-not-found;
when the source runs out first, the read error is returned instead. -/
theorem scanForHeaders_none :
    ∀ (fuel : Nat) (lines : List (List String)),
      (∀ line ∈ lines.take fuel,
        (decide (line.length > 0) && strContains (line.headD "") "date/time") = false) →
      scanForHeaders fuel lines =
        .error (if fuel ≤ lines.length then .headersNotFound else .readFail) := by
  intro fuel
  induction fuel with
  | zero => intro lines h; simp [scanForHeaders]
  | succ n ih =>
    intro lines h
    cases lines with
    | nil => simp [scanForHeaders]
    | cons l ls =>
      have hl : (decide (l.length > 0) && strContains (l.headD "") "date/time") = false :=
        h l (by simp)
      have hrest : ∀ line ∈ ls.take n,
          (decide (line.length > 0) && strContains (line.headD "") "date/time") = false := by
        intro line hline
        exact h line (by simp [hline])
      simp only [scanForHeaders, hl]
      rw [if_neg (by simp)]
      rw [ih ls hrest]
      congr 1
      simp [Nat.succ_le_succ_iff]

/-- Counterexample to claim C8 as stated: a one-line source with no header
marker. The ingestion fails, but with the read error that `reader.Read`
returns once the source is exhausted, not with the headers-not-found error
the claim names; the dedicated error only arises after 20 successful reads. -/
theorem header_scan_short_file_counterexample :
    ParseAndStorePayments (fun _ => none) (fun _ => none) 0 [["x"]] = .error .readFail
    ∧ IngestErr.readFail ≠ IngestErr.headersNotFound
    ∧ (∀ line ∈ [[("x" : String)]],
        (decide (line.length > 0) && strContains (line.headD "") "date/time") = false) :=
  ⟨rfl, by decide, by decide⟩

/-- Claim C8 (amended): the payment ingestor scans at most the first 20
lines for a line whose first field contains the `date/time` marker. When no
such line is in that window the whole ingestion fails before processing any
data row: with the headers-not-found error when the source supplied a line
for each of the 20 reads, and with the surfaced read error when the source
ran out earlier. -/
theorem header_scan_bounded_amended (p1 p2 : String → Option GoTime) (now : GoTime)
    (lines : List (List String))
    (hnone : ∀ line ∈ lines.take 20,
      (decide (line.length > 0) && strContains (line.headD "") "date/time") = false) :
    ParseAndStorePayments p1 p2 now lines =
      .error (if 20 ≤ lines.length then .headersNotFound else .readFail) := by
  rw [ParseAndStorePayments, scanForHeaders_none 20 lines hnone]

/-- Witness for claim C8 (amended): a two-line markerless source fails with
the read error; a 21-line markerless source fails with headers-not-found. -/
theorem header_scan_bounded_amended_witness :
    ((∀ line ∈ ([["a"], ["b"]] : List (List String)).take 20,
        (decide (line.length > 0) && strContains (line.headD "") "date/time") = false)
      ∧ ParseAndStorePayments (fun _ => none) (fun _ => none) 0 [["a"], ["b"]] =
          .error (if 20 ≤ ([["a"], ["b"]] : List (List String)).length
                  then .headersNotFound else .readFail))
    ∧ ParseAndStorePayments (fun _ => none) (fun _ => none) 0
        (List.replicate 21 ["a"]) =
        .error (if 20 ≤ (List.replicate 21 (["a"] : List String)).length
                then .headersNotFound else .readFail) :=
  ⟨⟨by decide, header_scan_bounded_amended _ _ _ _ (by decide)⟩,
   header_scan_bounded_amended _ _ _ _ (by decide)⟩

/-- Folding the ignored-error insert over a row list keeps exactly the rows
whose insert succeeds, in order. -/
theorem execInsert_foldl_filter (insFails : ReconciledRow → Bool) :
    ∀ (rows acc : List ReconciledRow),
      rows.foldl (fun table r => (dbExecInsertReconciled insFails table r).1) acc =
        acc ++ rows.filter (fun r => !insFails r) := by
  intro rows
  induction rows with
  | nil =>
    intro acc
    simp
  | cons r rs ih =>
    intro acc
    rw [List.foldl_cons, List.filter_cons]
    have hstep : (dbExecInsertReconciled insFails acc r).1 =
        if insFails r = true then acc else acc ++ [r] := by
      rw [dbExecInsertReconciled]
      by_cases h : insFails r = true
      · rw [if_pos h, if_pos h]
      · rw [if_neg h, if_neg h]
    by_cases h : insFails r = true
    · rw [hstep, if_pos h, ih acc]
      simp [h]
    · have hf : insFails r = false := Bool.eq_false_iff.mpr h
      rw [hstep, if_neg h, ih (acc ++ [r])]
      simp [hf]

/-- Counterexample to claim C9 as stated: one matched payments/settlements
pair, a store on which every `reconciled_records` insert fails. An insert is
attempted and fails (the join output is non-empty and the failure predicate
is constantly true), yet the reconciliation pass does not abort with an
error: it returns success with no row stored. -/
theorem reconciliation_insert_failure_counterexample :
    runReconciliation [⟨1, "payments", "A", 0, 5⟩, ⟨2, "settlements", "A", 0, 3⟩] ≠ []
    ∧ RunReconciliationE false (fun _ => true)
        [⟨1, "payments", "A", 0, 5⟩, ⟨2, "settlements", "A", 0, 3⟩] = .ok [] :=
  ⟨by decide, rfl⟩

/-- Claim C9 (amended): a failure of the initial join query aborts the
reconciliation pass with an error; row-level insert failures, however, are
silently discarded (`config.DB.Exec`'s result is dropped): the pass
continues with the remaining matched pairs, stores exactly the rows whose
insert succeeded, and reports success. -/
theorem reconciliation_insert_failures_ignored (queryFails : Bool)
    (insFails : ReconciledRow → Bool) (records : List StoredRecord) :
    RunReconciliationE queryFails insFails records =
      (if queryFails = true then .error ()
       else .ok ((runReconciliation records).filter (fun r => !insFails r))) := by
  cases queryFails
  · have h1 : RunReconciliationE false insFails records =
        .ok ((runReconciliation records).foldl
          (fun table r => (dbExecInsertReconciled insFails table r).1) []) := rfl
    rw [h1, execInsert_foldl_filter insFails (runReconciliation records) []]
    simp
  · rfl

/-- Claim C10: no batch-inserter constructor rejects out-of-range sizing
parameters: `batchSize ≤ 0` is silently replaced by the default 1000 and
`workers ≤ 0` by the default 4, in all three constructors, and the prepared
and streaming constructors fail only when statement preparation fails, never
because of the sizing arguments. -/
theorem constructor_sizing_defaults (batchSize workers : Int) :
    (batchSize ≤ 0 →
      (NewBatchInserter batchSize workers).batchSize = 1000
      ∧ (NewPreparedBatchInserter false batchSize workers).map
          PreparedBatchInserter.batchSize = some 1000
      ∧ (NewStreamingBatchInserter false batchSize workers).map
          StreamingBatchInserter.batchSize = some 1000)
    ∧ (workers ≤ 0 →
      (NewBatchInserter batchSize workers).workers = 4
      ∧ (NewPreparedBatchInserter false batchSize workers).map
          PreparedBatchInserter.workers = some 4
      ∧ (NewStreamingBatchInserter false batchSize workers).map
          StreamingBatchInserter.workers = some 4)
    ∧ (NewPreparedBatchInserter false batchSize workers).isSome = true
    ∧ (NewStreamingBatchInserter false batchSize workers).isSome = true := by
  refine ⟨?_, ?_, ?_, ?_⟩
  · intro h
    refine ⟨?_, ?_, ?_⟩ <;>
      simp [NewBatchInserter, NewPreparedBatchInserter, NewStreamingBatchInserter, h]
  · intro h
    refine ⟨?_, ?_, ?_⟩ <;>
      simp [NewBatchInserter, NewPreparedBatchInserter, NewStreamingBatchInserter, h]
  · simp [NewPreparedBatchInserter]
  · simp [NewStreamingBatchInserter]

end ConcreteEvaluation
